import Mathlib

/-!
Verification of the symlink reconciliation engine of `agentlink`
(`internal/symlink/manager.go` and the `sync`/`check` command loops in
`internal/cli/sync.go`, `internal/cli/check.go`).

The filesystem is modelled shallowly: an absolute path is its list of
components (`/a/b` is `["a", "b"]`), a filesystem is an association list
from paths to entries (regular file with content, directory, or symlink
storing its raw target), together with oracles for the paths on which
`lstat` or `readlink` fail with an I/O error.  `filepath.Clean`,
`filepath.Dir`, `filepath.Join` and `filepath.Rel` on cleaned absolute
paths become the component-list functions `cleanComps`, `List.dropLast`,
append, and `relPath`.
-/

namespace Agentlink

/-- An absolute filesystem path, as its list of components. -/
abbrev Path := List String

/-- A path is well formed when it is already cleaned: no empty, `.` or
`..` components.  The configuration supplier guarantees this for the
source and link paths it hands to the core. -/
def wfPath (p : Path) : Bool :=
  p.all fun c => decide (c ≠ "" ∧ c ≠ "." ∧ c ≠ "..")

/-- One step of lexical path cleaning: empty and `.` components vanish,
`..` pops the last component (at the root it is dropped, as
`filepath.Clean` does for absolute paths), anything else is appended. -/
def cleanStep (acc : List String) (c : String) : List String :=
  if c = "" ∨ c = "." then acc
  else if c = ".." then acc.dropLast
  else acc ++ [c]

/-- `filepath.Clean` on an absolute path, at the component level. -/
def cleanComps (p : Path) : Path :=
  p.foldl cleanStep []

/-- Length of the longest common prefix of two component lists. -/
def commonPrefixLen : Path → Path → Nat
  | a :: as, b :: bs => if a = b then commonPrefixLen as bs + 1 else 0
  | _, _ => 0

/-- `filepath.Rel base target` for cleaned absolute paths: strip the
common prefix, then climb with `..` once per remaining component of the
base.  (`filepath.Rel` cannot fail when both arguments are absolute.) -/
def relPath (base target : Path) : Path :=
  List.replicate (base.length - commonPrefixLen base target) ".." ++
    target.drop (commonPrefixLen base target)

/-- A filesystem entry: regular file with content, directory, or symlink
storing its raw target (the flag records whether the stored target
string is absolute). -/
inductive FSEntry where
  | file (content : String)
  | dir
  | symlink (isAbs : Bool) (target : Path)
  deriving DecidableEq, Repr

/-- The entry table of a filesystem: an association list from paths to
entries; the first binding of a path is the authoritative one. -/
abbrev Entries := List (Path × FSEntry)

/-- First binding of a path in an entry table. -/
def lookupEntry : Entries → Path → Option FSEntry
  | [], _ => none
  | kv :: rest, p => if kv.1 = p then some kv.2 else lookupEntry rest p

/-- Remove every binding of one path. -/
def eraseKey : Entries → Path → Entries
  | [], _ => []
  | kv :: rest, p => if kv.1 = p then eraseKey rest p else kv :: eraseKey rest p

/-- Remove every binding at or below a path (`os.RemoveAll`). -/
def eraseUnder : Entries → Path → Entries
  | [], _ => []
  | kv :: rest, p => if p.isPrefixOf kv.1 then eraseUnder rest p else kv :: eraseUnder rest p

/-- Add a binding in front of the table (it shadows any older one). -/
def insertEntry (l : Entries) (k : Path) (e : FSEntry) : Entries :=
  (k, e) :: l

/-- A filesystem state: the entry table plus the oracles of paths on
which `lstat` (other than not-exists) or `readlink` fail. -/
structure FS where
  entries : Entries
  statErr : List Path
  readErr : List Path
  deriving DecidableEq, Repr

/-- The manager configuration: the three booleans fixed at
construction (`NewManager`). -/
structure Manager where
  dryRun : Bool
  force : Bool
  verbose : Bool
  deriving DecidableEq, Repr

/-- The five-state classification of a link (`LinkStatus`). -/
inductive LinkStatus where
  | ok | missing | wrongTarget | notSymlink | broken
  deriving DecidableEq, Repr

/-- Result of classifying one link (`LinkInfo`); `errored` mirrors the
`Error` field being populated. -/
structure LinkInfo where
  path : Path
  expectedPath : Path
  target : Option (Bool × Path)
  status : LinkStatus
  errored : Bool
  deriving DecidableEq, Repr

/-- Outcome of `os.Lstat` in the model. -/
inductive StatResult where
  | entry (e : FSEntry)
  | notExist
  | ioError
  deriving DecidableEq, Repr

/-- `os.Lstat`: I/O-error oracle first, then table lookup. -/
def lstat (fs : FS) (p : Path) : StatResult :=
  if p ∈ fs.statErr then .ioError
  else
    match lookupEntry fs.entries p with
    | some e => .entry e
    | none => .notExist

/-- `Manager.CheckLink`: classify a link path against the expected
source path.  Mirrors the source line by line: lstat, symlink-mode
test, readlink, resolution of a relative raw target against the link's
directory, `Clean` on both sides, exact equality. -/
def checkLink (fs : FS) (linkPath expectedTarget : Path) : LinkInfo :=
  match lstat fs linkPath with
  | .notExist => ⟨linkPath, expectedTarget, none, .missing, false⟩
  | .ioError => ⟨linkPath, expectedTarget, none, .broken, true⟩
  | .entry e =>
    match e with
    | .file _ => ⟨linkPath, expectedTarget, none, .notSymlink, false⟩
    | .dir => ⟨linkPath, expectedTarget, none, .notSymlink, false⟩
    | .symlink ab tgt =>
      if linkPath ∈ fs.readErr then ⟨linkPath, expectedTarget, none, .broken, true⟩
      else
        if (if ab then cleanComps tgt else cleanComps (linkPath.dropLast ++ tgt)) =
            cleanComps expectedTarget then
          ⟨linkPath, expectedTarget, some (ab, tgt), .ok, false⟩
        else
          ⟨linkPath, expectedTarget, some (ab, tgt), .wrongTarget, false⟩

/-- Errors surfaced by the mutating primitives (`fmt.Errorf` values,
kept structured so the paths they name are visible). -/
inductive SyncError where
  | mkdirFailed (linkPath : Path)
  | symlinkFailed (linkPath : Path)
  | wrongTargetConflict (linkPath : Path) (current : Option (Bool × Path)) (expected : Path)
  | notSymlinkConflict (linkPath : Path)
  | removeFailed (linkPath : Path)
  deriving DecidableEq, Repr

/-- Errors of source validation (`ValidateSource`). -/
inductive SourceError where
  | notExist (p : Path)
  | statFailed (p : Path)
  | isSymlinkNoForce (p : Path)
  | notRegular (p : Path)
  deriving DecidableEq, Repr

/-- The non-root prefixes of a directory path, shortest first. -/
def prefixesOf (dir : Path) : List Path :=
  (List.range dir.length).map fun i => dir.take (i + 1)

/-- `os.MkdirAll dir` succeeds iff no prefix of `dir` is bound to a
non-directory entry; it checks this before creating anything. -/
def mkdirOk (l : Entries) (dir : Path) : Bool :=
  (prefixesOf dir).all fun p =>
    match lookupEntry l p with
    | none => true
    | some .dir => true
    | some _ => false

/-- The creation phase of `os.MkdirAll`: bind every currently missing
prefix of `dir` to a directory. -/
def mkdirInsert (l : Entries) (dir : Path) : Entries :=
  (prefixesOf dir).foldl
    (fun acc p => if (lookupEntry acc p).isNone then insertEntry acc p .dir else acc) l

/-- `Manager.CreateLink`: dry-run is a pure no-op; otherwise
`MkdirAll(Dir(linkPath))`, then `filepath.Rel(Dir(linkPath), target)`,
then `os.Symlink` (which fails if anything already sits at the link
path). -/
def createLink (m : Manager) (fs : FS) (linkPath targetPath : Path) : FS × Option SyncError :=
  if m.dryRun then (fs, none)
  else if mkdirOk fs.entries linkPath.dropLast then
    let ents := mkdirInsert fs.entries linkPath.dropLast
    match lookupEntry ents linkPath with
    | some _ => ({ fs with entries := ents }, some (.symlinkFailed linkPath))
    | none =>
        ({ fs with entries :=
            insertEntry ents linkPath (.symlink false (relPath linkPath.dropLast targetPath)) },
         none)
  else (fs, some (.mkdirFailed linkPath))

/-- Does any entry sit strictly below a path? (`ENOTEMPTY` test.) -/
def hasChildEntry (l : Entries) (p : Path) : Bool :=
  l.any fun kv => p.isPrefixOf kv.1 && !(kv.1 == p)

/-- `os.Remove`: fails when nothing is bound or the path is a
non-empty directory; otherwise removes the single binding. -/
def removeOp (fs : FS) (p : Path) : FS × Bool :=
  match lookupEntry fs.entries p with
  | none => (fs, false)
  | some .dir =>
    if hasChildEntry fs.entries p then (fs, false)
    else ({ fs with entries := eraseKey fs.entries p }, true)
  | some _ => ({ fs with entries := eraseKey fs.entries p }, true)

/-- `os.RemoveAll`: removes the path and everything below it, and never
fails (a missing path is fine). -/
def removeAllOp (fs : FS) (p : Path) : FS :=
  { fs with entries := eraseUnder fs.entries p }

/-- `Manager.ValidateSource`: lstat the source; a symlink is rejected
without force; anything that is neither regular nor a symlink is
rejected. -/
def isSymlinkEntry : FSEntry → Bool
  | .symlink _ _ => true
  | _ => false

/-- Is the entry a regular file? (`Mode().IsRegular()`.) -/
def isRegularEntry : FSEntry → Bool
  | .file _ => true
  | _ => false

/-- `Manager.ValidateSource`. -/
def validateSource (m : Manager) (fs : FS) (sourcePath : Path) : Except SourceError Unit :=
  match lstat fs sourcePath with
  | .notExist => .error (.notExist sourcePath)
  | .ioError => .error (.statFailed sourcePath)
  | .entry info =>
    if isSymlinkEntry info && !m.force then .error (.isSymlinkNoForce sourcePath)
    else if !isRegularEntry info && !isSymlinkEntry info then .error (.notRegular sourcePath)
    else .ok ()

/-- `Manager.RemoveLink`: dry-run no-op; otherwise re-classify and
remove the entry only when the classification is `OK`. -/
def removeLink (m : Manager) (fs : FS) (linkPath expectedTarget : Path) : FS × Option SyncError :=
  if m.dryRun then (fs, none)
  else if (checkLink fs linkPath expectedTarget).status = .ok then
    let r := removeOp fs linkPath
    if r.2 then (r.1, none) else (r.1, some (.removeFailed linkPath))
  else (fs, none)

/-- `Manager.FixLink`: the five-way decision procedure.  Note that the
`os.Remove` / `os.RemoveAll` calls in the `WrongTarget`, `NotSymlink`
and `Broken` branches are written in the source without any dry-run
guard; only `CreateLink` checks `dryRun`.  The model reproduces this
faithfully. -/
def fixLink (m : Manager) (fs : FS) (linkPath targetPath : Path) : FS × Except SyncError String :=
  match (checkLink fs linkPath targetPath).status with
  | .ok => (fs, .ok "skip")
  | .missing =>
    match createLink m fs linkPath targetPath with
    | (fs1, some e) => (fs1, .error e)
    | (fs1, none) => (fs1, .ok "create")
  | .wrongTarget =>
    if m.force = false then
      (fs, .error (.wrongTargetConflict linkPath
        (checkLink fs linkPath targetPath).target targetPath))
    else
      let r := removeOp fs linkPath
      if r.2 = false then (r.1, .error (.removeFailed linkPath))
      else
        match createLink m r.1 linkPath targetPath with
        | (fs2, some e) => (fs2, .error e)
        | (fs2, none) => (fs2, .ok "fix")
  | .notSymlink =>
    if m.force = false then (fs, .error (.notSymlinkConflict linkPath))
    else
      match createLink m (removeAllOp fs linkPath) linkPath targetPath with
      | (fs2, some e) => (fs2, .error e)
      | (fs2, none) => (fs2, .ok "replace")
  | .broken =>
    let r := removeOp fs linkPath
    if r.2 = false then (r.1, .error (.removeFailed linkPath))
    else
      match createLink m r.1 linkPath targetPath with
      | (fs2, some e) => (fs2, .error e)
      | (fs2, none) => (fs2, .ok "fix broken")

/-- A validated configuration: one source path, ordered link paths. -/
structure Config where
  source : Path
  links : List Path
  deriving DecidableEq, Repr

/-- Outcome of a whole command run. -/
inductive RunError where
  | invalidSource (e : SourceError)
  | syncCompletedWithErrors
  deriving DecidableEq, Repr

/-- Is a per-link outcome an error? -/
def isErrorE : Except SyncError String → Bool
  | .error _ => true
  | .ok _ => false

/-- The per-link loop of `runSync`: process links in order, threading
the filesystem, recording each link's outcome; an error on one link
does not stop the loop. -/
def syncLoop (m : Manager) (src : Path) (links : List Path) (fs : FS) :
    FS × List (Path × Except SyncError String) :=
  links.foldl
    (fun acc l =>
      let r := fixLink m acc.1 l src
      (r.1, acc.2 ++ [(l, r.2)]))
    (fs, [])

/-- `runSync` (`internal/cli/sync.go`): validate the source first and
return immediately on failure; otherwise run the per-link loop and
report an aggregate error when any link failed. -/
def runSync (m : Manager) (fs : FS) (cfg : Config) :
    FS × List (Path × Except SyncError String) × Option RunError :=
  match validateSource m fs cfg.source with
  | .error e => (fs, [], some (.invalidSource e))
  | .ok _ =>
    let r := syncLoop m cfg.source cfg.links fs
    if r.2.any fun lr => isErrorE lr.2 then (r.1, r.2, some .syncCompletedWithErrors)
    else (r.1, r.2, none)

/-- `runCheck` (`internal/cli/check.go`): the manager is built with
`dryRun=false, force=false`; source validation failure only sets the
problem flag, after which every configured link is still classified;
the command fails iff the source failed validation or some link is not
`OK`.  The returned triple is (source result, per-link reports,
failed). -/
def runCheck (fs : FS) (cfg : Config) (vb : Bool) :
    Except SourceError Unit × List (Path × LinkInfo) × Bool :=
  let m : Manager := ⟨false, false, vb⟩
  let sourceRes := validateSource m fs cfg.source
  let reports := cfg.links.map fun l => (l, checkLink fs l cfg.source)
  let failed :=
    (match sourceRes with
     | .ok _ => false
     | .error _ => true) ||
    reports.any fun r => !decide (r.2.status = LinkStatus.ok)
  (sourceRes, reports, failed)

/-! ### Lemmas about path cleaning and relative paths -/

theorem wfPath_mem {p : Path} (h : wfPath p = true) {c : String} (hc : c ∈ p) :
    c ≠ "" ∧ c ≠ "." ∧ c ≠ ".." := by
  have := List.all_eq_true.mp h c hc
  exact of_decide_eq_true this

theorem wfPath_cons {c : String} {cs : Path} (h : wfPath (c :: cs) = true) :
    (c ≠ "" ∧ c ≠ "." ∧ c ≠ "..") ∧ wfPath cs = true := by
  simp only [wfPath, List.all_cons, Bool.and_eq_true, decide_eq_true_eq] at h
  exact ⟨h.1, h.2⟩

theorem cleanStep_wf {c : String} (h : c ≠ "" ∧ c ≠ "." ∧ c ≠ "..") (acc : List String) :
    cleanStep acc c = acc ++ [c] := by
  simp [cleanStep, h.1, h.2.1, h.2.2]

theorem cleanStep_dotdot (acc : List String) : cleanStep acc ".." = acc.dropLast := by
  simp only [cleanStep]
  rw [if_neg (by decide)]
  simp

theorem foldl_cleanStep_wf : ∀ (p : Path) (acc : List String), wfPath p = true →
    p.foldl cleanStep acc = acc ++ p := by
  intro p
  induction p with
  | nil => intro acc _; simp
  | cons c cs ih =>
    intro acc h
    obtain ⟨hc, hcs⟩ := wfPath_cons h
    simp only [List.foldl_cons, cleanStep_wf hc]
    rw [ih _ hcs]
    simp

theorem cleanComps_wf {p : Path} (h : wfPath p = true) : cleanComps p = p := by
  unfold cleanComps
  rw [foldl_cleanStep_wf p [] h]
  simp

theorem foldl_cleanStep_pop : ∀ (k : Nat) (xs : Path) (acc rest : List String),
    xs.length = k →
    List.foldl cleanStep (acc ++ xs) (List.replicate k ".." ++ rest) =
      List.foldl cleanStep acc rest := by
  intro k
  induction k with
  | zero =>
    intro xs acc rest hx
    rw [List.length_eq_zero.mp hx]
    simp
  | succ n ih =>
    intro xs acc rest hx
    have hne : xs ≠ [] := by intro h; simp [h] at hx
    rw [List.replicate_succ]
    simp only [List.cons_append, List.foldl_cons, cleanStep_dotdot]
    have h2 : acc ++ xs = (acc ++ xs.dropLast) ++ [xs.getLast hne] := by
      rw [List.append_assoc, List.dropLast_append_getLast hne]
    rw [h2, List.dropLast_concat]
    exact ih xs.dropLast acc rest (by rw [List.length_dropLast, hx]; rfl)

theorem commonPrefixLen_nil_left (ts : Path) : commonPrefixLen [] ts = 0 := by
  cases ts <;> rfl

theorem commonPrefixLen_nil_right (bs : Path) : commonPrefixLen bs [] = 0 := by
  cases bs <;> rfl

theorem relPath_nil_left (ts : Path) : relPath [] ts = ts := by
  simp [relPath, commonPrefixLen_nil_left]

theorem relPath_nil_right (bs : Path) :
    relPath bs [] = List.replicate bs.length ".." := by
  simp [relPath, commonPrefixLen_nil_right]

theorem relPath_cons_eq (b : String) (bs ts : Path) :
    relPath (b :: bs) (b :: ts) = relPath bs ts := by
  simp [relPath, commonPrefixLen, Nat.succ_sub_succ]

theorem relPath_cons_ne {b t : String} (hbt : b ≠ t) (bs ts : Path) :
    relPath (b :: bs) (t :: ts) = List.replicate (bs.length + 1) ".." ++ (t :: ts) := by
  simp [relPath, commonPrefixLen, hbt]

theorem foldl_cleanStep_rel : ∀ (bs ts : Path) (acc : List String),
    wfPath bs = true → wfPath ts = true →
    List.foldl cleanStep acc (bs ++ relPath bs ts) = acc ++ ts := by
  intro bs
  induction bs with
  | nil =>
    intro ts acc _ hts
    rw [relPath_nil_left]
    simp only [List.nil_append]
    exact foldl_cleanStep_wf ts acc hts
  | cons b bs ih =>
    intro ts acc hb hts
    obtain ⟨hbwf, hbswf⟩ := wfPath_cons hb
    cases ts with
    | nil =>
      rw [relPath_nil_right, List.foldl_append, foldl_cleanStep_wf (b :: bs) acc hb]
      have := foldl_cleanStep_pop (b :: bs).length (b :: bs) acc [] rfl
      simpa using this
    | cons t ts =>
      obtain ⟨_, htswf⟩ := wfPath_cons hts
      by_cases hbt : b = t
      · subst hbt
        rw [relPath_cons_eq]
        simp only [List.cons_append, List.foldl_cons, cleanStep_wf hbwf]
        rw [ih ts (acc ++ [b]) hbswf htswf]
        simp
      · rw [relPath_cons_ne hbt]
        rw [List.foldl_append, foldl_cleanStep_wf (b :: bs) acc hb]
        rw [foldl_cleanStep_pop (bs.length + 1) (b :: bs) acc (t :: ts) (by simp)]
        exact foldl_cleanStep_wf (t :: ts) acc hts

theorem rel_resolves {base target : Path} (hb : wfPath base = true)
    (ht : wfPath target = true) :
    cleanComps (base ++ relPath base target) = target := by
  unfold cleanComps
  rw [foldl_cleanStep_rel base target [] hb ht]
  simp

theorem wfPath_dropLast {p : Path} (h : wfPath p = true) : wfPath p.dropLast = true := by
  simp only [wfPath, List.all_eq_true] at h ⊢
  exact fun c hc => h c (List.dropLast_subset p hc)

/-! ### Lemmas about the entry table -/

theorem lookupEntry_insert_self (l : Entries) (k : Path) (e : FSEntry) :
    lookupEntry (insertEntry l k e) k = some e := by
  simp [insertEntry, lookupEntry]

theorem lookupEntry_insert_ne (l : Entries) {k q : Path} (e : FSEntry) (h : k ≠ q) :
    lookupEntry (insertEntry l k e) q = lookupEntry l q := by
  simp [insertEntry, lookupEntry, h]

theorem lookupEntry_eraseKey_self : ∀ (l : Entries) (p : Path),
    lookupEntry (eraseKey l p) p = none := by
  intro l p
  induction l with
  | nil => rfl
  | cons kv rest ih =>
    simp only [eraseKey]
    split
    · exact ih
    · next h => simp [lookupEntry, h, ih]

theorem lookupEntry_eraseKey_ne : ∀ (l : Entries) {p q : Path}, p ≠ q →
    lookupEntry (eraseKey l p) q = lookupEntry l q := by
  intro l p q hpq
  induction l with
  | nil => rfl
  | cons kv rest ih =>
    simp only [eraseKey]
    split
    · next h =>
      rw [ih]
      have : kv.1 ≠ q := h ▸ hpq
      simp [lookupEntry, this]
    · simp only [lookupEntry]
      split
      · rfl
      · exact ih

theorem lookupEntry_eraseUnder_not_prefix : ∀ (l : Entries) {p q : Path},
    ¬ p <+: q → lookupEntry (eraseUnder l p) q = lookupEntry l q := by
  intro l p q hpq
  induction l with
  | nil => rfl
  | cons kv rest ih =>
    simp only [eraseUnder]
    split
    · next h =>
      rw [ih]
      have hne : kv.1 ≠ q := by
        intro he
        exact hpq (he ▸ List.isPrefixOf_iff_prefix.mp h)
      simp [lookupEntry, hne]
    · simp only [lookupEntry]
      split
      · rfl
      · exact ih

theorem not_prefix_of_mem_eraseUnder : ∀ {l : Entries} {p : Path} {kv : Path × FSEntry},
    kv ∈ eraseUnder l p → ¬ p <+: kv.1 := by
  intro l
  induction l with
  | nil => intro p kv h; cases h
  | cons kv0 rest ih =>
    intro p kv h
    simp only [eraseUnder] at h
    split at h
    · exact ih h
    · next hbn =>
      rcases List.mem_cons.mp h with rfl | hm
      · exact fun hp => hbn (List.isPrefixOf_iff_prefix.mpr hp)
      · exact ih hm

/-! ### Lemmas about `MkdirAll` -/

theorem mem_prefixesOf {p dir : Path} (h : p ∈ prefixesOf dir) : p <+: dir := by
  simp only [prefixesOf, List.mem_map, List.mem_range] at h
  obtain ⟨i, _, rfl⟩ := h
  exact List.take_prefix _ _

theorem lookupEntry_foldIns : ∀ (ps : List Path) (l : Entries) {q : Path}, q ∉ ps →
    lookupEntry
      (ps.foldl (fun acc p =>
        if (lookupEntry acc p).isNone then insertEntry acc p .dir else acc) l) q =
      lookupEntry l q := by
  intro ps
  induction ps with
  | nil => intro l q _; rfl
  | cons p ps ih =>
    intro l q h
    simp only [List.foldl_cons]
    rw [ih _ fun hq => h (List.mem_cons_of_mem _ hq)]
    split
    · exact lookupEntry_insert_ne _ _ fun hpq => h (hpq ▸ List.mem_cons_self _ _)
    · rfl

theorem lookupEntry_mkdirInsert {l : Entries} {dir q : Path} (h : q ∉ prefixesOf dir) :
    lookupEntry (mkdirInsert l dir) q = lookupEntry l q :=
  lookupEntry_foldIns _ _ h

theorem mem_foldIns : ∀ (ps : List Path) (l : Entries) (kv : Path × FSEntry),
    kv ∈ ps.foldl (fun acc p =>
        if (lookupEntry acc p).isNone then insertEntry acc p .dir else acc) l →
    kv ∈ l ∨ kv.1 ∈ ps := by
  intro ps
  induction ps with
  | nil => intro l kv h; exact Or.inl h
  | cons p ps ih =>
    intro l kv h
    simp only [List.foldl_cons] at h
    rcases ih _ kv h with hm | hm
    · split at hm
      · rcases List.mem_cons.mp hm with rfl | hm2
        · exact Or.inr (List.mem_cons_self _ _)
        · exact Or.inl hm2
      · exact Or.inl hm
    · exact Or.inr (List.mem_cons_of_mem _ hm)

theorem mem_mkdirInsert {l : Entries} {dir : Path} {kv : Path × FSEntry}
    (h : kv ∈ mkdirInsert l dir) : kv ∈ l ∨ kv.1 ∈ prefixesOf dir :=
  mem_foldIns _ _ _ h

/-! ### The error oracles are never touched by any operation -/

theorem createLink_statErr (m : Manager) (fs : FS) (l t : Path) :
    ((createLink m fs l t).1).statErr = fs.statErr := by
  unfold createLink
  split
  · rfl
  split
  · dsimp only
    split <;> rfl
  · rfl

theorem createLink_readErr (m : Manager) (fs : FS) (l t : Path) :
    ((createLink m fs l t).1).readErr = fs.readErr := by
  unfold createLink
  split
  · rfl
  split
  · dsimp only
    split <;> rfl
  · rfl

theorem removeOp_statErr (fs : FS) (p : Path) :
    ((removeOp fs p).1).statErr = fs.statErr := by
  unfold removeOp
  split <;> first | rfl | (split <;> rfl)

theorem removeOp_readErr (fs : FS) (p : Path) :
    ((removeOp fs p).1).readErr = fs.readErr := by
  unfold removeOp
  split <;> first | rfl | (split <;> rfl)

theorem fixLink_statErr (m : Manager) (fs : FS) (l t : Path) :
    ((fixLink m fs l t).1).statErr = fs.statErr := by
  unfold fixLink
  split
  · rfl
  · split
    · next fs1 e heq =>
      have h := createLink_statErr m fs l t
      rw [heq] at h
      exact h
    · next fs1 heq =>
      have h := createLink_statErr m fs l t
      rw [heq] at h
      exact h
  · split
    · rfl
    · dsimp only
      split
      · exact removeOp_statErr fs l
      · split
        · next fs2 e heq =>
          have h := createLink_statErr m (removeOp fs l).1 l t
          rw [heq] at h
          rw [h]
          exact removeOp_statErr fs l
        · next fs2 heq =>
          have h := createLink_statErr m (removeOp fs l).1 l t
          rw [heq] at h
          rw [h]
          exact removeOp_statErr fs l
  · split
    · rfl
    · split
      · next fs2 e heq =>
        have h := createLink_statErr m (removeAllOp fs l) l t
        rw [heq] at h
        exact h
      · next fs2 heq =>
        have h := createLink_statErr m (removeAllOp fs l) l t
        rw [heq] at h
        exact h
  · dsimp only
    split
    · exact removeOp_statErr fs l
    · split
      · next fs2 e heq =>
        have h := createLink_statErr m (removeOp fs l).1 l t
        rw [heq] at h
        rw [h]
        exact removeOp_statErr fs l
      · next fs2 heq =>
        have h := createLink_statErr m (removeOp fs l).1 l t
        rw [heq] at h
        rw [h]
        exact removeOp_statErr fs l

theorem fixLink_readErr (m : Manager) (fs : FS) (l t : Path) :
    ((fixLink m fs l t).1).readErr = fs.readErr := by
  unfold fixLink
  split
  · rfl
  · split
    · next fs1 e heq =>
      have h := createLink_readErr m fs l t
      rw [heq] at h
      exact h
    · next fs1 heq =>
      have h := createLink_readErr m fs l t
      rw [heq] at h
      exact h
  · split
    · rfl
    · dsimp only
      split
      · exact removeOp_readErr fs l
      · split
        · next fs2 e heq =>
          have h := createLink_readErr m (removeOp fs l).1 l t
          rw [heq] at h
          rw [h]
          exact removeOp_readErr fs l
        · next fs2 heq =>
          have h := createLink_readErr m (removeOp fs l).1 l t
          rw [heq] at h
          rw [h]
          exact removeOp_readErr fs l
  · split
    · rfl
    · split
      · next fs2 e heq =>
        have h := createLink_readErr m (removeAllOp fs l) l t
        rw [heq] at h
        exact h
      · next fs2 heq =>
        have h := createLink_readErr m (removeAllOp fs l) l t
        rw [heq] at h
        exact h
  · dsimp only
    split
    · exact removeOp_readErr fs l
    · split
      · next fs2 e heq =>
        have h := createLink_readErr m (removeOp fs l).1 l t
        rw [heq] at h
        rw [h]
        exact removeOp_readErr fs l
      · next fs2 heq =>
        have h := createLink_readErr m (removeOp fs l).1 l t
        rw [heq] at h
        rw [h]
        exact removeOp_readErr fs l


/-! ### Structural lemmas about the primitives -/

/-- On success outside dry-run, `CreateLink` leaves exactly the new
relative symlink binding in front of the table grown by `MkdirAll`. -/
theorem createLink_ok_entries {m : Manager} {fs : FS} {l t : Path}
    (hdry : m.dryRun = false) (h : (createLink m fs l t).2 = none) :
    ((createLink m fs l t).1).entries =
      insertEntry (mkdirInsert fs.entries l.dropLast) l
        (.symlink false (relPath l.dropLast t)) := by
  unfold createLink at h ⊢
  rw [hdry] at h ⊢
  simp only [Bool.false_eq_true, if_false] at h ⊢
  split at h
  · split at h
    · exact absurd h (by simp)
    · rw [if_pos ‹mkdirOk fs.entries (List.dropLast l) = true›]
  · exact absurd h (by simp)

theorem createLink_ok_lookup {m : Manager} {fs : FS} {l t : Path}
    (hdry : m.dryRun = false) (h : (createLink m fs l t).2 = none) :
    lookupEntry ((createLink m fs l t).1).entries l =
      some (.symlink false (relPath l.dropLast t)) := by
  rw [createLink_ok_entries hdry h, lookupEntry_insert_self]

/-- `lstat` on a path with no oracle error and a binding. -/
theorem lstat_of_lookup {fs : FS} {p : Path} (hs : p ∉ fs.statErr) {e : FSEntry}
    (hl : lookupEntry fs.entries p = some e) :
    lstat fs p = .entry e := by
  unfold lstat
  rw [if_neg hs, hl]

/-- Conversely, an `entry` result of `lstat` reveals the binding. -/
theorem lookup_of_lstat_entry {fs : FS} {p : Path} {e : FSEntry}
    (h : lstat fs p = .entry e) :
    lookupEntry fs.entries p = some e := by
  unfold lstat at h
  split at h
  · cases h
  · split at h
    · next heq => cases h; exact heq
    · cases h

/-- `CheckLink` on a path bound to a symlink and free of I/O errors:
the status is decided purely by the resolved-target comparison. -/
theorem checkLink_status_of_symlink {fs : FS} {link : Path} (src : Path)
    (hs : link ∉ fs.statErr) (hr : link ∉ fs.readErr) {b : Bool} {t : Path}
    (hl : lookupEntry fs.entries link = some (.symlink b t)) :
    (checkLink fs link src).status =
      if (if b then cleanComps t else cleanComps (link.dropLast ++ t)) = cleanComps src
      then .ok else .wrongTarget := by
  unfold checkLink
  rw [lstat_of_lookup hs hl]
  dsimp only
  rw [if_neg hr]
  by_cases hc :
      (if b then cleanComps t else cleanComps (link.dropLast ++ t)) = cleanComps src
  · rw [if_pos hc, if_pos hc]
  · rw [if_neg hc, if_neg hc]

/-- A link bound to the relative symlink `CreateLink` would store is
classified `OK`. -/
theorem checkLink_ok_of_relLink {fs : FS} {link src : Path}
    (hwl : wfPath link = true) (hws : wfPath src = true)
    (hs : link ∉ fs.statErr) (hr : link ∉ fs.readErr)
    (hl : lookupEntry fs.entries link =
      some (.symlink false (relPath link.dropLast src))) :
    (checkLink fs link src).status = .ok := by
  rw [checkLink_status_of_symlink src hs hr hl]
  rw [if_pos]
  simp only [Bool.false_eq_true, if_false]
  rw [rel_resolves (wfPath_dropLast hwl) hws, cleanComps_wf hws]

/-- An `OK` classification can only come from a symlink binding. -/
theorem checkLink_ok_symlink {fs : FS} {link src : Path}
    (h : (checkLink fs link src).status = .ok) :
    ∃ b t, lookupEntry fs.entries link = some (.symlink b t) := by
  unfold checkLink at h
  cases hst : lstat fs link with
  | entry e =>
    rw [hst] at h
    cases e with
    | file c => simp at h
    | dir => simp at h
    | symlink b t => exact ⟨b, t, lookup_of_lstat_entry hst⟩
  | notExist => rw [hst] at h; simp at h
  | ioError => rw [hst] at h; simp at h

/-- `os.Remove` on a symlink binding always succeeds and erases exactly
that binding. -/
theorem removeOp_of_symlink {fs : FS} {p : Path} {b : Bool} {t : Path}
    (h : lookupEntry fs.entries p = some (.symlink b t)) :
    removeOp fs p = ({ fs with entries := eraseKey fs.entries p }, true) := by
  unfold removeOp
  rw [h]

/-! ### Branch equations for `FixLink` -/

theorem fixLink_of_ok {m : Manager} {fs : FS} {link src : Path}
    (h : (checkLink fs link src).status = .ok) :
    fixLink m fs link src = (fs, .ok "skip") := by
  unfold fixLink
  rw [h]

theorem fixLink_of_missing {m : Manager} {fs : FS} {link src : Path}
    (h : (checkLink fs link src).status = .missing) :
    fixLink m fs link src =
      (match createLink m fs link src with
       | (fs1, some e) => (fs1, .error e)
       | (fs1, none) => (fs1, .ok "create")) := by
  unfold fixLink
  rw [h]

theorem fixLink_of_wrongTarget {m : Manager} {fs : FS} {link src : Path}
    (h : (checkLink fs link src).status = .wrongTarget) :
    fixLink m fs link src =
      (if m.force = false then
        (fs, .error (.wrongTargetConflict link (checkLink fs link src).target src))
      else if (removeOp fs link).2 = false then
        ((removeOp fs link).1, .error (.removeFailed link))
      else
        match createLink m (removeOp fs link).1 link src with
        | (fs2, some e) => (fs2, .error e)
        | (fs2, none) => (fs2, .ok "fix")) := by
  unfold fixLink
  rw [h]

theorem fixLink_of_notSymlink {m : Manager} {fs : FS} {link src : Path}
    (h : (checkLink fs link src).status = .notSymlink) :
    fixLink m fs link src =
      (if m.force = false then (fs, .error (.notSymlinkConflict link))
      else
        match createLink m (removeAllOp fs link) link src with
        | (fs2, some e) => (fs2, .error e)
        | (fs2, none) => (fs2, .ok "replace")) := by
  unfold fixLink
  rw [h]

theorem fixLink_of_broken {m : Manager} {fs : FS} {link src : Path}
    (h : (checkLink fs link src).status = .broken) :
    fixLink m fs link src =
      (if (removeOp fs link).2 = false then
        ((removeOp fs link).1, .error (.removeFailed link))
      else
        match createLink m (removeOp fs link).1 link src with
        | (fs2, some e) => (fs2, .error e)
        | (fs2, none) => (fs2, .ok "fix broken")) := by
  unfold fixLink
  rw [h]

/-- Every successful non-skip `FixLink` ends with the link path bound to
the freshly created relative symlink; a skip leaves the state alone. -/
theorem fixLink_ok_cases {m : Manager} {fs : FS} {link src : Path}
    (hdry : m.dryRun = false) (hok : isErrorE (fixLink m fs link src).2 = false) :
    ((checkLink fs link src).status = .ok ∧ fixLink m fs link src = (fs, .ok "skip")) ∨
    lookupEntry ((fixLink m fs link src).1).entries link =
      some (.symlink false (relPath link.dropLast src)) := by
  cases hcs : (checkLink fs link src).status
  case ok => exact Or.inl ⟨rfl, fixLink_of_ok hcs⟩
  case missing =>
    rw [fixLink_of_missing hcs] at hok ⊢
    rcases hc : createLink m fs link src with ⟨fs1, e⟩
    rw [hc] at hok
    cases e with
    | some err => simp [isErrorE] at hok
    | none =>
      have h2 := createLink_ok_lookup hdry
        (show (createLink m fs link src).2 = none by rw [hc])
      rw [hc] at h2
      exact Or.inr h2
  case wrongTarget =>
    rw [fixLink_of_wrongTarget hcs] at hok ⊢
    by_cases hf : m.force = false
    · rw [if_pos hf] at hok
      simp [isErrorE] at hok
    rw [if_neg hf] at hok ⊢
    by_cases hr2 : (removeOp fs link).2 = false
    · rw [if_pos hr2] at hok
      simp [isErrorE] at hok
    rw [if_neg hr2] at hok ⊢
    rcases hc : createLink m (removeOp fs link).1 link src with ⟨fs2, e⟩
    rw [hc] at hok
    cases e with
    | some err => simp [isErrorE] at hok
    | none =>
      have h2 := createLink_ok_lookup hdry
        (show (createLink m (removeOp fs link).1 link src).2 = none by rw [hc])
      rw [hc] at h2
      exact Or.inr h2
  case notSymlink =>
    rw [fixLink_of_notSymlink hcs] at hok ⊢
    by_cases hf : m.force = false
    · rw [if_pos hf] at hok
      simp [isErrorE] at hok
    rw [if_neg hf] at hok ⊢
    rcases hc : createLink m (removeAllOp fs link) link src with ⟨fs2, e⟩
    rw [hc] at hok
    cases e with
    | some err => simp [isErrorE] at hok
    | none =>
      have h2 := createLink_ok_lookup hdry
        (show (createLink m (removeAllOp fs link) link src).2 = none by rw [hc])
      rw [hc] at h2
      exact Or.inr h2
  case broken =>
    rw [fixLink_of_broken hcs] at hok ⊢
    by_cases hr2 : (removeOp fs link).2 = false
    · rw [if_pos hr2] at hok
      simp [isErrorE] at hok
    rw [if_neg hr2] at hok ⊢
    rcases hc : createLink m (removeOp fs link).1 link src with ⟨fs2, e⟩
    rw [hc] at hok
    cases e with
    | some err => simp [isErrorE] at hok
    | none =>
      have h2 := createLink_ok_lookup hdry
        (show (createLink m (removeOp fs link).1 link src).2 = none by rw [hc])
      rw [hc] at h2
      exact Or.inr h2

/-! ### Frame lemmas: which paths an operation can touch -/

theorem createLink_lookup_preserved (m : Manager) (fs : FS) (link t q : Path)
    (h2 : ¬ q <+: link) :
    lookupEntry ((createLink m fs link t).1).entries q = lookupEntry fs.entries q := by
  have hqp : q ∉ prefixesOf link.dropLast := fun hq =>
    h2 ((mem_prefixesOf hq).trans (List.dropLast_prefix link))
  have hql : link ≠ q := fun he => h2 (by rw [he])
  unfold createLink
  split
  · rfl
  split
  · dsimp only
    split
    · exact lookupEntry_mkdirInsert hqp
    · rw [lookupEntry_insert_ne _ _ hql]
      exact lookupEntry_mkdirInsert hqp
  · rfl

theorem removeOp_lookup_preserved {fs : FS} {p q : Path} (h : p ≠ q) :
    lookupEntry ((removeOp fs p).1).entries q = lookupEntry fs.entries q := by
  unfold removeOp
  split
  · rfl
  · split
    · rfl
    · exact lookupEntry_eraseKey_ne _ h
  · exact lookupEntry_eraseKey_ne _ h

theorem removeAllOp_lookup_preserved {fs : FS} {p q : Path} (h : ¬ p <+: q) :
    lookupEntry (removeAllOp fs p).entries q = lookupEntry fs.entries q :=
  lookupEntry_eraseUnder_not_prefix _ h

/-- `FixLink` never touches the binding of a path that is neither at or
below the link path nor an ancestor of it. -/
theorem fixLink_lookup_preserved (m : Manager) (fs : FS) (link tgt q : Path)
    (h1 : ¬ link <+: q) (h2 : ¬ q <+: link) :
    lookupEntry ((fixLink m fs link tgt).1).entries q = lookupEntry fs.entries q := by
  have hne : link ≠ q := fun he => h1 (by rw [he])
  cases hcs : (checkLink fs link tgt).status
  case ok => rw [fixLink_of_ok hcs]
  case missing =>
    rw [fixLink_of_missing hcs]
    have hl := createLink_lookup_preserved m fs link tgt q h2
    rcases hc : createLink m fs link tgt with ⟨fs1, e⟩
    rw [hc] at hl
    cases e <;> exact hl
  case wrongTarget =>
    rw [fixLink_of_wrongTarget hcs]
    by_cases hf : m.force = false
    · rw [if_pos hf]
    · rw [if_neg hf]
      by_cases hr2 : (removeOp fs link).2 = false
      · rw [if_pos hr2]
        exact removeOp_lookup_preserved hne
      · rw [if_neg hr2]
        have hl := createLink_lookup_preserved m (removeOp fs link).1 link tgt q h2
        rcases hc : createLink m (removeOp fs link).1 link tgt with ⟨fs2, e⟩
        rw [hc] at hl
        cases e <;> exact hl.trans (removeOp_lookup_preserved hne)
  case notSymlink =>
    rw [fixLink_of_notSymlink hcs]
    by_cases hf : m.force = false
    · rw [if_pos hf]
    · rw [if_neg hf]
      have hl := createLink_lookup_preserved m (removeAllOp fs link) link tgt q h2
      rcases hc : createLink m (removeAllOp fs link) link tgt with ⟨fs2, e⟩
      rw [hc] at hl
      cases e <;> exact hl.trans (removeAllOp_lookup_preserved h1)
  case broken =>
    rw [fixLink_of_broken hcs]
    by_cases hr2 : (removeOp fs link).2 = false
    · rw [if_pos hr2]
      exact removeOp_lookup_preserved hne
    · rw [if_neg hr2]
      have hl := createLink_lookup_preserved m (removeOp fs link).1 link tgt q h2
      rcases hc : createLink m (removeOp fs link).1 link tgt with ⟨fs2, e⟩
      rw [hc] at hl
      cases e <;> exact hl.trans (removeOp_lookup_preserved hne)

/-- `RemoveLink` never touches the binding of any other path. -/
theorem removeLink_lookup_preserved (m : Manager) (fs : FS) (link tgt q : Path)
    (hne : link ≠ q) :
    lookupEntry ((removeLink m fs link tgt).1).entries q = lookupEntry fs.entries q := by
  unfold removeLink
  split
  · rfl
  · split
    · dsimp only
      split
      · exact removeOp_lookup_preserved hne
      · exact removeOp_lookup_preserved hne
    · rfl

/-- A created parent directory is never at or below the link path. -/
theorem not_under_of_mem_prefixes {link p : Path} (hp : p ∈ prefixesOf link.dropLast) :
    ¬ link <+: p := by
  intro hlp
  cases link with
  | nil => simp [prefixesOf] at hp
  | cons a as =>
    have h1 : p.length ≤ (a :: as).dropLast.length := (mem_prefixesOf hp).length_le
    have h3 : (a :: as).length ≤ p.length := hlp.length_le
    rw [List.length_dropLast] at h1
    simp only [List.length_cons] at h1 h3
    omega

/-- After a forced replace, every surviving binding is either the new
link itself or entirely outside the link's subtree. -/
theorem replace_keys_under_link {fs : FS} {link : Path} {sym : FSEntry} :
    ((insertEntry (mkdirInsert (eraseUnder fs.entries link) link.dropLast) link sym).all
      fun kv => !(link.isPrefixOf kv.1) || kv.1 == link) = true := by
  rw [List.all_eq_true]
  intro kv hkv
  rcases List.mem_cons.mp hkv with rfl | hm
  · simp
  · have hout : ¬ link <+: kv.1 := by
      rcases mem_mkdirInsert hm with hm2 | hm2
      · exact not_prefix_of_mem_eraseUnder hm2
      · exact not_under_of_mem_prefixes hm2
    rw [Bool.or_eq_true]
    left
    rw [Bool.not_eq_true']
    exact Bool.eq_false_iff.mpr fun hx => hout (List.isPrefixOf_iff_prefix.mp hx)

/-! ### The claims -/

/-- C1 (counterexample): when the configured link path *equals* the
source path and the source is a regular file, a forced `FixLink` removes
the source file and replaces it with a self-referential symlink — the
entry at the source path is destroyed. -/
theorem fixLink_self_link_destroys_source :
    lookupEntry ([(["s"], FSEntry.file "X")] : Entries) ["s"] = some (.file "X") ∧
    (fixLink ⟨false, true, false⟩ ⟨[(["s"], FSEntry.file "X")], [], []⟩ ["s"] ["s"]).2 =
      .ok "replace" ∧
    lookupEntry
      ((fixLink ⟨false, true, false⟩ ⟨[(["s"], FSEntry.file "X")], [], []⟩ ["s"] ["s"]).1).entries
      ["s"] = some (.symlink false ["s"]) :=
  ⟨rfl, rfl, rfl⟩

/-- C1 (amended): for every manager configuration, filesystem, link
path and source path such that neither path lies at-or-below the other,
neither `FixLink` nor `RemoveLink` removes, replaces or modifies the
binding at the source path. -/
theorem source_preserved_of_disjoint (m : Manager) (fs : FS) (link src : Path)
    (h1 : ¬ link <+: src) (h2 : ¬ src <+: link) :
    lookupEntry ((fixLink m fs link src).1).entries src = lookupEntry fs.entries src ∧
    lookupEntry ((removeLink m fs link src).1).entries src = lookupEntry fs.entries src :=
  ⟨fixLink_lookup_preserved m fs link src src h1 h2,
   removeLink_lookup_preserved m fs link src src fun he => h1 (by rw [he])⟩

/-- C1 witness: a forced real run on a sibling link leaves the source
binding untouched, for both operations. -/
theorem source_preserved_of_disjoint_witness :
    lookupEntry ((fixLink ⟨false, true, false⟩
        ⟨[(["a", "s.md"], FSEntry.file "X")], [], []⟩ ["a", "l.md"] ["a", "s.md"]).1).entries
      ["a", "s.md"] =
      lookupEntry ([(["a", "s.md"], FSEntry.file "X")] : Entries) ["a", "s.md"] ∧
    lookupEntry ((removeLink ⟨false, true, false⟩
        ⟨[(["a", "s.md"], FSEntry.file "X")], [], []⟩ ["a", "l.md"] ["a", "s.md"]).1).entries
      ["a", "s.md"] =
      lookupEntry ([(["a", "s.md"], FSEntry.file "X")] : Entries) ["a", "s.md"] :=
  source_preserved_of_disjoint ⟨false, true, false⟩
    ⟨[(["a", "s.md"], FSEntry.file "X")], [], []⟩ ["a", "l.md"] ["a", "s.md"]
    (by decide) (by decide)

/-- C2 (code bug): with `dryRun = true` and `force = true`, `FixLink` on
a wrong-target symlink still executes the un-guarded `os.Remove`: the
existing symlink vanishes while the guarded `CreateLink` creates
nothing, and the call even reports the action `fix`. -/
theorem dryRun_fixLink_removes_entry :
    lookupEntry ([(["l"], FSEntry.symlink false ["other"]), (["other"], FSEntry.file "o"),
        (["s"], FSEntry.file "X")] : Entries) ["l"] = some (.symlink false ["other"]) ∧
    (fixLink ⟨true, true, false⟩
      ⟨[(["l"], FSEntry.symlink false ["other"]), (["other"], FSEntry.file "o"),
        (["s"], FSEntry.file "X")], [], []⟩ ["l"] ["s"]).2 = .ok "fix" ∧
    lookupEntry ((fixLink ⟨true, true, false⟩
      ⟨[(["l"], FSEntry.symlink false ["other"]), (["other"], FSEntry.file "o"),
        (["s"], FSEntry.file "X")], [], []⟩ ["l"] ["s"]).1).entries ["l"] = none :=
  ⟨rfl, rfl, rfl⟩

/-- C3: without force, `FixLink` on a `WrongTarget` or `NotSymlink`
classification returns the structured conflict error naming the paths
and returns the filesystem entirely unchanged. -/
theorem fixLink_noforce_conflict_no_mutation (m : Manager) (fs : FS) (link src : Path)
    (hf : m.force = false) :
    ((checkLink fs link src).status = .wrongTarget →
      fixLink m fs link src =
        (fs, .error (.wrongTargetConflict link (checkLink fs link src).target src))) ∧
    ((checkLink fs link src).status = .notSymlink →
      fixLink m fs link src = (fs, .error (.notSymlinkConflict link))) := by
  constructor
  · intro h
    rw [fixLink_of_wrongTarget h, if_pos hf]
  · intro h
    rw [fixLink_of_notSymlink h, if_pos hf]

/-- C3 witness: a wrong-target symlink without force. -/
theorem fixLink_noforce_conflict_no_mutation_witness :
    fixLink ⟨false, false, false⟩ ⟨[(["l"], FSEntry.symlink false ["o"])], [], []⟩ ["l"] ["s"] =
      (⟨[(["l"], FSEntry.symlink false ["o"])], [], []⟩,
       .error (.wrongTargetConflict ["l"] (some (false, ["o"])) ["s"])) :=
  (fixLink_noforce_conflict_no_mutation ⟨false, false, false⟩
    ⟨[(["l"], FSEntry.symlink false ["o"])], [], []⟩ ["l"] ["s"] rfl).1 (by decide)

/-- C4: the five-row decision table of `FixLink` (real run).  `OK`
skips without mutation; `Missing` creates and reports `create`;
`WrongTarget` with force removes and re-creates, reporting `fix`, and
without force fails with the conflict error; `NotSymlink` with force
removes the whole subtree (recursively) and re-creates, reporting
`replace`, and without force fails; `Broken` removes and re-creates
reporting `fix broken` with no force required. -/
theorem fixLink_decision_table (m : Manager) (fs : FS) (link src : Path)
    (hdry : m.dryRun = false) :
    ((checkLink fs link src).status = .ok → fixLink m fs link src = (fs, .ok "skip")) ∧
    ((checkLink fs link src).status = .missing →
        isErrorE (fixLink m fs link src).2 = false →
      (fixLink m fs link src).2 = .ok "create" ∧
      lookupEntry ((fixLink m fs link src).1).entries link =
        some (.symlink false (relPath link.dropLast src))) ∧
    ((checkLink fs link src).status = .wrongTarget → m.force = true →
        isErrorE (fixLink m fs link src).2 = false →
      (fixLink m fs link src).2 = .ok "fix" ∧
      lookupEntry ((fixLink m fs link src).1).entries link =
        some (.symlink false (relPath link.dropLast src))) ∧
    ((checkLink fs link src).status = .wrongTarget → m.force = false →
      fixLink m fs link src =
        (fs, .error (.wrongTargetConflict link (checkLink fs link src).target src))) ∧
    ((checkLink fs link src).status = .notSymlink → m.force = true →
        isErrorE (fixLink m fs link src).2 = false →
      (fixLink m fs link src).2 = .ok "replace" ∧
      lookupEntry ((fixLink m fs link src).1).entries link =
        some (.symlink false (relPath link.dropLast src)) ∧
      (((fixLink m fs link src).1).entries.all
        fun kv => !(link.isPrefixOf kv.1) || kv.1 == link) = true) ∧
    ((checkLink fs link src).status = .notSymlink → m.force = false →
      fixLink m fs link src = (fs, .error (.notSymlinkConflict link))) ∧
    ((checkLink fs link src).status = .broken →
        isErrorE (fixLink m fs link src).2 = false →
      (fixLink m fs link src).2 = .ok "fix broken" ∧
      lookupEntry ((fixLink m fs link src).1).entries link =
        some (.symlink false (relPath link.dropLast src))) := by
  refine ⟨fun h => fixLink_of_ok h, ?_, ?_, ?_, ?_, ?_, ?_⟩
  · intro h hok
    rw [fixLink_of_missing h] at hok ⊢
    rcases hc : createLink m fs link src with ⟨fs1, e⟩
    rw [hc] at hok
    cases e with
    | some err => simp [isErrorE] at hok
    | none =>
      have h2 := createLink_ok_lookup hdry
        (show (createLink m fs link src).2 = none by rw [hc])
      rw [hc] at h2
      exact ⟨rfl, h2⟩
  · intro h hforce hok
    have hf : ¬ m.force = false := by simp [hforce]
    rw [fixLink_of_wrongTarget h] at hok ⊢
    rw [if_neg hf] at hok ⊢
    by_cases hr2 : (removeOp fs link).2 = false
    · rw [if_pos hr2] at hok
      simp [isErrorE] at hok
    rw [if_neg hr2] at hok ⊢
    rcases hc : createLink m (removeOp fs link).1 link src with ⟨fs2, e⟩
    rw [hc] at hok
    cases e with
    | some err => simp [isErrorE] at hok
    | none =>
      have h2 := createLink_ok_lookup hdry
        (show (createLink m (removeOp fs link).1 link src).2 = none by rw [hc])
      rw [hc] at h2
      exact ⟨rfl, h2⟩
  · intro h hf
    rw [fixLink_of_wrongTarget h, if_pos hf]
  · intro h hforce hok
    have hf : ¬ m.force = false := by simp [hforce]
    rw [fixLink_of_notSymlink h] at hok ⊢
    rw [if_neg hf] at hok ⊢
    rcases hc : createLink m (removeAllOp fs link) link src with ⟨fs2, e⟩
    rw [hc] at hok
    cases e with
    | some err => simp [isErrorE] at hok
    | none =>
      have h2 := createLink_ok_lookup hdry
        (show (createLink m (removeAllOp fs link) link src).2 = none by rw [hc])
      have h3 := createLink_ok_entries hdry
        (show (createLink m (removeAllOp fs link) link src).2 = none by rw [hc])
      rw [hc] at h2 h3
      refine ⟨rfl, h2, ?_⟩
      show (fs2.entries.all fun kv => !(link.isPrefixOf kv.1) || kv.1 == link) = true
      rw [h3]
      exact replace_keys_under_link
  · intro h hf
    rw [fixLink_of_notSymlink h, if_pos hf]
  · intro h hok
    rw [fixLink_of_broken h] at hok ⊢
    by_cases hr2 : (removeOp fs link).2 = false
    · rw [if_pos hr2] at hok
      simp [isErrorE] at hok
    rw [if_neg hr2] at hok ⊢
    rcases hc : createLink m (removeOp fs link).1 link src with ⟨fs2, e⟩
    rw [hc] at hok
    cases e with
    | some err => simp [isErrorE] at hok
    | none =>
      have h2 := createLink_ok_lookup hdry
        (show (createLink m (removeOp fs link).1 link src).2 = none by rw [hc])
      rw [hc] at h2
      exact ⟨rfl, h2⟩

/-- C4 witness: the forced-replace row exercised on a regular file. -/
theorem fixLink_decision_table_witness :
    (fixLink ⟨false, true, false⟩ ⟨[(["l"], FSEntry.file "Y"), (["s"], FSEntry.file "X")], [], []⟩
      ["l"] ["s"]).2 = .ok "replace" ∧
    lookupEntry ((fixLink ⟨false, true, false⟩
      ⟨[(["l"], FSEntry.file "Y"), (["s"], FSEntry.file "X")], [], []⟩ ["l"] ["s"]).1).entries
      ["l"] = some (.symlink false (relPath (["l"] : Path).dropLast ["s"])) ∧
    (((fixLink ⟨false, true, false⟩
      ⟨[(["l"], FSEntry.file "Y"), (["s"], FSEntry.file "X")], [], []⟩ ["l"] ["s"]).1).entries.all
        fun kv => !((["l"] : Path).isPrefixOf kv.1) || kv.1 == ["l"]) = true :=
  (fixLink_decision_table ⟨false, true, false⟩
    ⟨[(["l"], FSEntry.file "Y"), (["s"], FSEntry.file "X")], [], []⟩ ["l"] ["s"]
    rfl).2.2.2.2.1 (by decide) rfl (by decide)

/-- C5: after one successful real-mode `FixLink` on an error-free link
path with cleaned absolute paths, re-classification yields `OK`, and a
second `FixLink` reports `skip` and leaves the filesystem untouched. -/
theorem fixLink_idempotent (m : Manager) (fs : FS) (link src : Path)
    (hwl : wfPath link = true) (hws : wfPath src = true)
    (hs : link ∉ fs.statErr) (hr : link ∉ fs.readErr)
    (hdry : m.dryRun = false)
    (hok : isErrorE (fixLink m fs link src).2 = false) :
    (checkLink (fixLink m fs link src).1 link src).status = .ok ∧
    fixLink m (fixLink m fs link src).1 link src = ((fixLink m fs link src).1, .ok "skip") := by
  have hs' : link ∉ ((fixLink m fs link src).1).statErr := by
    rw [fixLink_statErr]; exact hs
  have hr' : link ∉ ((fixLink m fs link src).1).readErr := by
    rw [fixLink_readErr]; exact hr
  rcases fixLink_ok_cases hdry hok with ⟨hcs, heq⟩ | hl
  · rw [heq]
    exact ⟨hcs, by rw [fixLink_of_ok hcs]⟩
  · have hstat := checkLink_ok_of_relLink hwl hws hs' hr' hl
    exact ⟨hstat, fixLink_of_ok hstat⟩

/-- C5 witness: creating a missing link converges to `OK`/`skip`. -/
theorem fixLink_idempotent_witness :
    (checkLink (fixLink ⟨false, false, false⟩ ⟨[(["p", "s.md"], FSEntry.file "X")], [], []⟩
        ["p", "l.md"] ["p", "s.md"]).1 ["p", "l.md"] ["p", "s.md"]).status = .ok ∧
    fixLink ⟨false, false, false⟩
        (fixLink ⟨false, false, false⟩ ⟨[(["p", "s.md"], FSEntry.file "X")], [], []⟩
          ["p", "l.md"] ["p", "s.md"]).1 ["p", "l.md"] ["p", "s.md"] =
      ((fixLink ⟨false, false, false⟩ ⟨[(["p", "s.md"], FSEntry.file "X")], [], []⟩
          ["p", "l.md"] ["p", "s.md"]).1, .ok "skip") :=
  fixLink_idempotent ⟨false, false, false⟩ ⟨[(["p", "s.md"], FSEntry.file "X")], [], []⟩
    ["p", "l.md"] ["p", "s.md"] (by decide) (by decide) (by decide) (by decide) rfl (by decide)

/-- C6 (counterexample): a dangling symlink (its target path has no
binding) that points at the expected source is classified `OK`, not
`Broken`, and `FixLink` merely skips it — `os.Readlink` reads the link
itself and never follows it, so a dangling link produces no I/O
error. -/
theorem dangling_symlink_classified_ok :
    lookupEntry ([(["AGENTS.md"], FSEntry.symlink false ["CLAUDE.md"])] : Entries)
      ["CLAUDE.md"] = none ∧
    (checkLink ⟨[(["AGENTS.md"], FSEntry.symlink false ["CLAUDE.md"])], [], []⟩
      ["AGENTS.md"] ["CLAUDE.md"]).status = .ok ∧
    (fixLink ⟨false, false, false⟩
      ⟨[(["AGENTS.md"], FSEntry.symlink false ["CLAUDE.md"])], [], []⟩
      ["AGENTS.md"] ["CLAUDE.md"]).2 = .ok "skip" :=
  ⟨rfl, rfl, rfl⟩

/-- C6 (amended): a dangling symlink is classified exactly like any
other symlink, by comparing its resolved stored target with the
expected source: `OK` on a match, `WrongTarget` otherwise, and never
`Broken`.  (`Broken` arises only from the lstat/readlink error
oracles.) -/
theorem checkLink_dangling_by_target (fs : FS) (link src : Path) (b : Bool) (t : Path)
    (hl : lookupEntry fs.entries link = some (.symlink b t))
    (hs : link ∉ fs.statErr) (hr : link ∉ fs.readErr)
    (hdangling : lookupEntry fs.entries
      (if b then cleanComps t else cleanComps (link.dropLast ++ t)) = none) :
    (checkLink fs link src).status =
      (if (if b then cleanComps t else cleanComps (link.dropLast ++ t)) = cleanComps src
       then .ok else .wrongTarget) ∧
    (checkLink fs link src).status ≠ .broken := by
  have h := checkLink_status_of_symlink src hs hr hl
  refine ⟨h, ?_⟩
  rw [h]
  split <;> split <;> simp

/-- C6 witness: a dangling symlink pointing somewhere else entirely is
still not `Broken`. -/
theorem checkLink_dangling_by_target_witness :
    (checkLink ⟨[(["AGENTS.md"], FSEntry.symlink false ["X.md"])], [], []⟩
      ["AGENTS.md"] ["CLAUDE.md"]).status ≠ .broken :=
  (checkLink_dangling_by_target ⟨[(["AGENTS.md"], FSEntry.symlink false ["X.md"])], [], []⟩
    ["AGENTS.md"] ["CLAUDE.md"] false ["X.md"] rfl (by decide) (by decide) rfl).2

/-- C7 (counterexample): with an empty filesystem (so the source fails
validation) and one configured link, the check command still classifies
that link — its report list is non-empty — even though the run fails.
`runSync`, by contrast, would return before the loop. -/
theorem runCheck_classifies_despite_invalid_source :
    (runCheck ⟨[], [], []⟩ ⟨["s"], [["l"]]⟩ false).1 = .error (.notExist ["s"]) ∧
    (runCheck ⟨[], [], []⟩ ⟨["s"], [["l"]]⟩ false).2.2 = true ∧
    (runCheck ⟨[], [], []⟩ ⟨["s"], [["l"]]⟩ false).2.1 =
      [(["l"], ⟨["l"], ["s"], none, .missing, false⟩)] :=
  ⟨rfl, rfl, rfl⟩

/-- C7 (amended): when source validation fails, `runSync` fails before
any link is processed (no link outcome, filesystem untouched), while
`runCheck` also fails with a non-zero result but still classifies every
configured link (mutating nothing, since classification is pure). -/
theorem invalid_source_run_behavior (m : Manager) (fs : FS) (cfg : Config) (vb : Bool)
    (e1 e2 : SourceError)
    (hsync : validateSource m fs cfg.source = .error e1)
    (hcheck : validateSource ⟨false, false, vb⟩ fs cfg.source = .error e2) :
    runSync m fs cfg = (fs, [], some (.invalidSource e1)) ∧
    (runCheck fs cfg vb).2.2 = true ∧
    (runCheck fs cfg vb).2.1 = cfg.links.map fun l => (l, checkLink fs l cfg.source) := by
  refine ⟨?_, ?_, rfl⟩
  · unfold runSync
    rw [hsync]
  · simp only [runCheck]
    rw [hcheck]
    simp

/-- C7 witness: missing source, one link. -/
theorem invalid_source_run_behavior_witness :
    runSync ⟨false, false, false⟩ ⟨[], [], []⟩ ⟨["s"], [["l"]]⟩ =
      (⟨[], [], []⟩, [], some (.invalidSource (.notExist ["s"]))) ∧
    (runCheck ⟨[], [], []⟩ ⟨["s"], [["l"]]⟩ false).2.2 = true ∧
    (runCheck ⟨[], [], []⟩ ⟨["s"], [["l"]]⟩ false).2.1 =
      ([["l"]] : List Path).map fun l => (l, checkLink ⟨[], [], []⟩ l ["s"]) :=
  invalid_source_run_behavior ⟨false, false, false⟩ ⟨[], [], []⟩ ⟨["s"], [["l"]]⟩ false
    (.notExist ["s"]) (.notExist ["s"]) rfl rfl

/-- C8: a successful real-mode `CreateLink` stores a relative symlink
target computed from the link's directory to the source — never an
absolute target — and that target resolves back to the source; the two
concrete layouts of the spec compute as stated. -/
theorem createLink_stores_relative_target (m : Manager) (fs : FS) (link src : Path)
    (hdry : m.dryRun = false) (hok : (createLink m fs link src).2 = none)
    (hwl : wfPath link = true) (hws : wfPath src = true) :
    lookupEntry ((createLink m fs link src).1).entries link =
      some (.symlink false (relPath link.dropLast src)) ∧
    cleanComps (link.dropLast ++ relPath link.dropLast src) = src ∧
    relPath ["A"] ["A", "C", "d.md"] = ["C", "d.md"] ∧
    relPath ["A", "x"] ["A", "d.md"] = ["..", "d.md"] :=
  ⟨createLink_ok_lookup hdry hok, rel_resolves (wfPath_dropLast hwl) hws,
   by decide, by decide⟩

/-- C8 witness: `A/b.md -> A/C/d.md` stores `C/d.md`. -/
theorem createLink_stores_relative_target_witness :
    lookupEntry ((createLink ⟨false, false, false⟩ ⟨[], [], []⟩
        ["A", "b.md"] ["A", "C", "d.md"]).1).entries ["A", "b.md"] =
      some (.symlink false (relPath (["A", "b.md"] : Path).dropLast ["A", "C", "d.md"])) ∧
    cleanComps ((["A", "b.md"] : Path).dropLast ++
        relPath (["A", "b.md"] : Path).dropLast ["A", "C", "d.md"]) = ["A", "C", "d.md"] ∧
    relPath ["A"] ["A", "C", "d.md"] = ["C", "d.md"] ∧
    relPath ["A", "x"] ["A", "d.md"] = ["..", "d.md"] :=
  createLink_stores_relative_target ⟨false, false, false⟩ ⟨[], [], []⟩
    ["A", "b.md"] ["A", "C", "d.md"] rfl rfl (by decide) (by decide)

/-- C9: `RemoveLink` deletes the binding at the link path only when the
re-classification is `OK`; on any other classification it returns
without error and the filesystem is completely unchanged. -/
theorem removeLink_only_removes_ok (m : Manager) (fs : FS) (link src : Path) :
    ((checkLink fs link src).status ≠ .ok → removeLink m fs link src = (fs, none)) ∧
    (m.dryRun = false → (checkLink fs link src).status = .ok →
      lookupEntry ((removeLink m fs link src).1).entries link = none ∧
      (removeLink m fs link src).2 = none) := by
  constructor
  · intro h
    unfold removeLink
    by_cases hd : m.dryRun = true
    · rw [if_pos hd]
    · rw [if_neg hd, if_neg h]
  · intro hdry hok
    obtain ⟨b, t, hl⟩ := checkLink_ok_symlink hok
    unfold removeLink
    rw [hdry]
    simp only [Bool.false_eq_true, if_false]
    rw [if_pos hok]
    rw [removeOp_of_symlink hl]
    exact ⟨lookupEntry_eraseKey_self _ _, rfl⟩

/-- C9 witness: an `OK` link is removed without error. -/
theorem removeLink_only_removes_ok_witness :
    lookupEntry ((removeLink ⟨false, false, false⟩
        ⟨[(["l"], FSEntry.symlink false ["s"]), (["s"], FSEntry.file "X")], [], []⟩
        ["l"] ["s"]).1).entries ["l"] = none ∧
    (removeLink ⟨false, false, false⟩
        ⟨[(["l"], FSEntry.symlink false ["s"]), (["s"], FSEntry.file "X")], [], []⟩
        ["l"] ["s"]).2 = none :=
  (removeLink_only_removes_ok ⟨false, false, false⟩
    ⟨[(["l"], FSEntry.symlink false ["s"]), (["s"], FSEntry.file "X")], [], []⟩
    ["l"] ["s"]).2 rfl (by decide)

/-- C10: `ValidateSource` fails exactly when the source is missing,
lstat fails for another reason, the source is a symlink without force,
or the source is neither a regular file nor a symlink; in particular,
once lstat succeeds, force makes any symlink acceptable regardless of
its target. -/
theorem validateSource_error_iff (m : Manager) (fs : FS) (src : Path) (b : Bool) (t : Path) :
    (validateSource m fs src = .ok () ↔
      ¬(src ∈ fs.statErr ∨ lookupEntry fs.entries src = none ∨
        (∃ b2 t2, lookupEntry fs.entries src = some (.symlink b2 t2) ∧ m.force = false) ∨
        lookupEntry fs.entries src = some .dir)) ∧
    (src ∉ fs.statErr → m.force = true →
      lookupEntry fs.entries src = some (.symlink b t) →
      validateSource m fs src = .ok ()) := by
  constructor
  · unfold validateSource lstat
    by_cases hs : src ∈ fs.statErr
    · rw [if_pos hs]
      simp [hs]
    · rw [if_neg hs]
      rcases hl : lookupEntry fs.entries src with _ | e
      · simp [hs]
      · cases e with
        | file c => simp [hs, isRegularEntry, isSymlinkEntry]
        | dir => simp [hs, isRegularEntry, isSymlinkEntry]
        | symlink b2 t2 =>
          cases hforce : m.force <;>
            simp [hs, isRegularEntry, isSymlinkEntry, hforce]
  · intro hs hf hl
    unfold validateSource
    rw [lstat_of_lookup hs hl]
    simp [isRegularEntry, isSymlinkEntry, hf]

/-- C10 witness: a dangling symlink source is accepted under force. -/
theorem validateSource_error_iff_witness :
    validateSource ⟨false, true, false⟩
      ⟨[(["s"], FSEntry.symlink false ["gone"])], [], []⟩ ["s"] = .ok () :=
  (validateSource_error_iff ⟨false, true, false⟩
    ⟨[(["s"], FSEntry.symlink false ["gone"])], [], []⟩ ["s"] false ["gone"]).2
    (by decide) rfl rfl

end Agentlink
